import Mathlib

/-!
Verification development for the BrainVault note bot (src/main.py).

The bot keeps, per user, a dictionary `notes` mapping category names to
ordered lists of formatted note entries, plus transient session fields
(`pending_note`, `pending_note_ts`, `selected_categories`,
`awaiting_action`).  The handlers below are shallow embeddings of the
Python handlers: Python dicts become association lists (insertion
ordered, unique keys in every reachable state), in-place mutation
becomes explicit state passing, and each `reply_text` /
`edit_message_text` call becomes a returned `Out` value carrying the
exact message string built by the source.  The clock is passed in as
the `now : String` argument (`get_current_timestamp` in the source).
Character classes model the ASCII fragment of Python's `\w`, `\s`,
`\d` and `str.lower`.
-/

/-- A Python dict mapping category names to note-entry lists,
modelled as an insertion-ordered association list. -/
abbrev Dict := List (String × List String)

/-- First-match lookup, `d[k]` / `d.get(k)`. -/
def dictGet : Dict → String → Option (List String)
  | [], _ => none
  | (k, v) :: rest, target => if k = target then some v else dictGet rest target

/-- Python `k in d`. -/
def dictContains (d : Dict) (k : String) : Bool :=
  (dictGet d k).isSome

/-- Python `d.setdefault(k, v)`: appends `(k, v)` at the end iff `k` is absent. -/
def dictSetdefault (d : Dict) (k : String) (v : List String) : Dict :=
  if dictContains d k then d else d ++ [(k, v)]

/-- In-place update of the list stored under an existing key
(Python mutating `d[k]` through `append` / `pop` / `remove`). -/
def dictModify : Dict → String → (List String → List String) → Dict
  | [], _, _ => []
  | (k, v) :: rest, target, f =>
    if k = target then (k, f v) :: rest else (k, v) :: dictModify rest target f

/-- Python `del d[k]`: removes the (first) entry stored under `k`. -/
def dictDelete : Dict → String → Dict
  | [], _ => []
  | (k, v) :: rest, target =>
    if k = target then rest else (k, v) :: dictDelete rest target

/-- ASCII fragment of Python regex `\w`. -/
def isWordChar (c : Char) : Bool :=
  c.isAlpha || c.isDigit || c = '_'

/-- Character class of the source regexes `[\w-]`. -/
def isTagChar (c : Char) : Bool :=
  isWordChar c || c = '-'

/-- ASCII fragment of Python `str.strip` / regex `\s` whitespace. -/
def isSpaceChar (c : Char) : Bool :=
  c = ' ' || c = '\t' || c = '\n' || c = '\r' || c = '\x0b' || c = '\x0c'

/-- Python `text.strip()`. -/
def pyStrip (s : String) : String :=
  ⟨((s.data.dropWhile isSpaceChar).reverse.dropWhile isSpaceChar).reverse⟩

/-- Python `str.lower` (ASCII fragment). -/
def pyLower (s : String) : String :=
  ⟨s.data.map Char.toLower⟩

/-- Python `text.lstrip('#')`. -/
def pyLstripHash (s : String) : String :=
  ⟨s.data.dropWhile (fun c => c = '#')⟩

/-- Python `int` on a digit string. -/
def digitsToNat (ds : List Char) : Nat :=
  ds.foldl (fun n c => 10 * n + (c.toNat - ('0').toNat)) 0

/-- Scanner for `re.findall(r'#[\w-]+', text)`: left-to-right
non-overlapping maximal matches; each is returned without its leading hash
(the subsequent `lstrip('#')` of the source strips exactly that one hash).
The fuel argument (instantiated with the input length, which strictly
bounds every recursive call) makes the recursion structural. -/
def findHashtagsAux : Nat → List Char → List (List Char)
  | 0, _ => []
  | _, [] => []
  | fuel + 1, c :: rest =>
    if c = '#' ∧ rest.takeWhile isTagChar ≠ [] then
      rest.takeWhile isTagChar :: findHashtagsAux fuel (rest.dropWhile isTagChar)
    else
      findHashtagsAux fuel rest

/-- Model of `re.findall(r'#[\w-]+', text)` on a character list. -/
def findHashtags (l : List Char) : List (List Char) :=
  findHashtagsAux l.length l

/-- Lexicographic comparison of character lists by code point, the order
Python's `sorted` uses on strings. -/
def charListLe : List Char → List Char → Bool
  | [], _ => true
  | _ :: _, [] => false
  | a :: as, b :: bs =>
    if a < b then true
    else if b < a then false
    else charListLe as bs

/-- Python string comparison `a <= b` (code-point lexicographic). -/
def strLe (a b : String) : Bool :=
  charListLe a.data b.data

/-- Source `extract_hashtags` (src/main.py line 57): unique, lowercase hashtags,
sorted; `sorted(list(set(tag.lstrip('#').lower() for tag in findall)))`. -/
def extract_hashtags (text : String) : List String :=
  List.insertionSort (fun a b => strLe a b = true)
    (((findHashtags text.data).map (fun cs => (⟨cs.map Char.toLower⟩ : String))).dedup)

/-- Source `get_notes` (line 51): `notes.setdefault('all', [])`. -/
def get_notes (d : Dict) : Dict :=
  dictSetdefault d ("all") []

/-- Source `get_category_keyboard` returns `None` iff there is no category other
than `all` (line 64-67); only that fact matters to the control flow. -/
def has_other_categories (d : Dict) : Bool :=
  d.any (fun p => p.1 ≠ "all")

/-- Per-user state: the `notes` dict plus the `user_data` session keys. -/
structure UserState where
  notes : Dict
  pending_note : Option String
  pending_note_ts : Option String
  selected_categories : Option (List String)
  awaiting_action : Option String
deriving DecidableEq, Repr

/-- One outward effect of a handler: a sent/edited message text, a pure
keyboard-markup update, or nothing. -/
inductive Out where
  | text (msg : String)
  | markup
  | silent
deriving DecidableEq, Repr

/-- Message of line 250. -/
def msg_created (cats : List String) : String :=
  "✨ Created new categories: " ++ (", ").intercalate cats

/-- Message of line 252. -/
def msg_already : String :=
  "✅ Those categories already exist."

/-- Message of lines 261-263. -/
def msg_menu (hashtags : List String) : String :=
  "Select additional categories for your note:" ++
    (if hashtags = [] then ""
     else "\n(Auto-selected from text: " ++
       (", ").intercalate (hashtags.map (fun t => "#" ++ t)) ++ ")")

/-- Message of line 283. -/
def msg_no_pending : String :=
  "❌ Error: No pending note found. Please try again."

/-- Message of line 324. -/
def msg_protected : String :=
  "⚠️ The <code>#all</code> category cannot be deleted."

/-- Message of line 327. -/
def msg_cat_deleted (cat : String) : String :=
  "✅ Category <code>#" ++ cat ++ "</code> has been deleted."

/-- Message of line 329. -/
def msg_cat_not_found (cat : String) : String :=
  "❌ Category <code>#" ++ cat ++ "</code> not found."

/-- Message of line 334. -/
def msg_invalid_format : String :=
  "⚠️ Invalid format. Please use: <code>#category number</code> (e.g., #work 2)."

/-- Message of line 342. -/
def msg_note_not_found (cat : String) (numStr : String) : String :=
  "❌ Note <code>#" ++ cat ++ " " ++ numStr ++ "</code> not found."

/-- Message of line 349. -/
def msg_note_deleted (cat : String) (entry : String) : String :=
  "✅ Deleted note from <code>#" ++ cat ++ "</code>:\n<s>" ++ entry ++ "</s>"

/-- One iteration of the category loop of `save_note` (lines 93-96). -/
def saveStep (entry : String) (d : Dict) (cat : String) : Dict :=
  if cat = "all" then d
  else dictModify (dictSetdefault d cat []) cat (fun l => l ++ [entry])

/-- Source `save_note` (lines 84-98): appends the formatted entry to `all` and to
every selected category other than `all` (creating it when absent), pops
the stashed timestamp, and returns the confirmation message. -/
def save_note (s : UserState) (note_text : String) (categories : List String)
    (now : String) : UserState × String :=
  let notes0 := get_notes s.notes
  let timestamp := s.pending_note_ts.getD now
  let entry := note_text ++ " @ " ++ timestamp
  let notes1 := dictModify notes0 ("all") (fun l => l ++ [entry])
  let notes2 := categories.foldl (saveStep entry) notes1
  let saved_to := ("#all") :: (categories.filter (fun c => c ≠ "all")).map (fun c => "#" ++ c)
  let msg := "✅ Note saved to: " ++
    (", ").intercalate (List.insertionSort (fun a b => strLe a b = true) saved_to.dedup) ++
    "\n📝 " ++ entry
  ({ s with notes := notes2, pending_note_ts := none }, msg)

/-- Model of `re.match(r'#([\w-]+)\s+(\d+)', text)` (line 332): anchored at the
start only; returns the tag group and the digit group.  Greedy maximal
munch is exact here because the three character classes are pairwise
disjoint, so backtracking can never produce a match this misses. -/
def matchDelNote (text : String) : Option (List Char × List Char) :=
  match text.data with
  | [] => none
  | c :: rest =>
    if c = '#' then
      let tag := rest.takeWhile isTagChar
      if tag = [] then none
      else
        let afterTag := rest.dropWhile isTagChar
        if afterTag.takeWhile isSpaceChar = [] then none
        else
          let digits := (afterTag.dropWhile isSpaceChar).takeWhile Char.isDigit
          if digits = [] then none else some (tag, digits)
    else none

/-- Source `handle_edit_input` (lines 316-349): consumes `awaiting_action`, then
performs the chosen delete-category / delete-note action. -/
def handle_edit_input (s : UserState) (action : String) (text : String) :
    UserState × Out :=
  let s1 := { s with awaiting_action := none, notes := get_notes s.notes }
  let notes := s1.notes
  if action = "edit_delcat" then
    let cat_to_delete := pyLower (pyLstripHash text)
    if cat_to_delete = "all" then
      (s1, Out.text msg_protected)
    else if dictContains notes cat_to_delete then
      ({ s1 with notes := dictDelete notes cat_to_delete },
        Out.text (msg_cat_deleted cat_to_delete))
    else
      (s1, Out.text (msg_cat_not_found cat_to_delete))
  else if action = "edit_delnote" then
    match matchDelNote (pyStrip text) with
    | none => (s1, Out.text msg_invalid_format)
    | some (tagChars, digitChars) =>
      let cat_name := pyLower ⟨tagChars⟩
      let note_num_str : String := ⟨digitChars⟩
      let note_idx : Int := (digitsToNat digitChars : Int) - 1
      match dictGet notes cat_name with
      | none => (s1, Out.text (msg_note_not_found cat_name note_num_str))
      | some entries =>
        if 0 ≤ note_idx ∧ note_idx < (entries.length : Int) then
          let i := note_idx.toNat
          let deleted := entries.getD i ""
          let notesA := dictModify notes cat_name (fun l => l.eraseIdx i)
          let allList := (dictGet notesA ("all")).getD []
          let notesB :=
            if deleted ∈ allList then
              dictModify notesA ("all") (fun l => l.erase deleted)
            else notesA
          ({ s1 with notes := notesB }, Out.text (msg_note_deleted cat_name deleted))
        else
          (s1, Out.text (msg_note_not_found cat_name note_num_str))
  else
    (s1, Out.silent)

/-- The loop of lines 244-248: create each novel tag as an empty category
(in extraction order); returns the new dict and `new_cats`. -/
def createNewCats : Dict → List String → Dict × List String
  | d, [] => (d, [])
  | d, t :: ts =>
    if dictContains d t then createNewCats d ts
    else
      let res := createNewCats (d ++ [(t, [])]) ts
      (res.1, ("#" ++ t) :: res.2)

/-- Source `text_handler` (lines 232-269): edit delegation, pure-tag-list
creation of empty categories, or the pending-note / immediate-save path. -/
def text_handler (s : UserState) (rawText : String) (now : String) :
    UserState × Out :=
  let text := pyStrip rawText
  let s1 := { s with notes := get_notes s.notes }
  match s1.awaiting_action with
  | some action => handle_edit_input s1 action text
  | none =>
    let hashtags := extract_hashtags text
    if (⟨text.data.filter (fun c => c ≠ ' ')⟩ : String) =
        String.join (hashtags.map (fun t => "#" ++ t)) then
      let res := createNewCats s1.notes hashtags
      let s2 := { s1 with notes := res.1 }
      if res.2 ≠ [] then (s2, Out.text (msg_created res.2))
      else (s2, Out.text msg_already)
    else
      let s2 := { s1 with pending_note := some text, pending_note_ts := some now,
                          selected_categories := some hashtags }
      if has_other_categories s2.notes then
        (s2, Out.text (msg_menu hashtags))
      else
        let res := save_note s2 text hashtags now
        ({ res.1 with pending_note := none, selected_categories := none },
          Out.text res.2)

/-- Python `data.removeprefix('cat_')` via an explicit starts-with check. -/
def startsWithChars : List Char → List Char → Bool
  | [], _ => true
  | _ :: _, [] => false
  | p :: ps, c :: cs => p = c && startsWithChars ps cs

/-- Python `str.removeprefix`. -/
def pyRemoveLead (p : String) (s : String) : String :=
  if startsWithChars p.data s.data then ⟨s.data.drop p.data.length⟩ else s

/-- Source `category_callback` (lines 271-297): the Done commit (including the
`NoPendingNote` guard, which also fires on a falsy empty pending text)
and the toggle branch. -/
def category_callback (s : UserState) (data : String) (now : String) :
    UserState × Out :=
  let selected := s.selected_categories.getD []
  let s1 := { s with notes := get_notes s.notes, selected_categories := some selected }
  if data = "cat_done" then
    let note_text := s1.pending_note
    let s2 := { s1 with pending_note := none }
    match note_text with
    | none => (s2, Out.text msg_no_pending)
    | some t =>
      if t = "" then (s2, Out.text msg_no_pending)
      else
        let res := save_note s2 t selected now
        ({ res.1 with selected_categories := none }, Out.text res.2)
  else
    let cat_name := pyRemoveLead ("cat_") data
    let newSel :=
      if cat_name ∈ selected then selected.filter (fun c => c ≠ cat_name)
      else selected ++ [cat_name]
    ({ s1 with selected_categories := some newSel }, Out.markup)

/-- Source `edit_option_callback` (lines 299-314): opens the edit session. -/
def edit_option_callback (s : UserState) (action : String) : UserState × Out :=
  let s1 := { s with awaiting_action := some action }
  if action = "edit_delcat" then
    (s1, Out.text ("Type the category to delete (e.g., <code>#work</code>). This will delete the category but not the notes within it."))
  else if action = "edit_delnote" then
    (s1, Out.text ("Type the category and note number to delete (e.g., <code>#work 2</code>)."))
  else
    (s1, Out.text ("Unknown action."))

/-! ### Association-list (dict) lemmas -/

theorem dictGet_modify_self : ∀ (d : Dict) (k : String) (f : List String → List String),
    dictGet (dictModify d k f) k = (dictGet d k).map f
  | [], _, _ => rfl
  | (a, v) :: rest, k, f => by
    by_cases h : a = k
    · simp [dictModify, dictGet, h]
    · simp [dictModify, dictGet, h, dictGet_modify_self rest k f]

theorem dictGet_modify_ne : ∀ (d : Dict) {k k' : String}
    (f : List String → List String), k' ≠ k →
    dictGet (dictModify d k f) k' = dictGet d k'
  | [], _, _, _, _ => rfl
  | (a, v) :: rest, k, k', f, h => by
    by_cases ha : a = k
    · subst ha
      simp [dictModify, dictGet, Ne.symm h]
    · by_cases ha' : a = k'
      · subst ha'
        simp [dictModify, dictGet, ha, h]
      · simp [dictModify, dictGet, ha, ha', dictGet_modify_ne rest f h]

theorem dictGet_delete_ne : ∀ (d : Dict) {k k' : String}, k' ≠ k →
    dictGet (dictDelete d k) k' = dictGet d k'
  | [], _, _, _ => rfl
  | (a, v) :: rest, k, k', h => by
    by_cases ha : a = k
    · subst ha
      simp [dictDelete, dictGet, Ne.symm h]
    · by_cases ha' : a = k'
      · subst ha'
        simp [dictDelete, dictGet, ha, h]
      · simp [dictDelete, dictGet, ha, ha', dictGet_delete_ne rest h]

theorem dictGet_eq_none_of_not_mem : ∀ (d : Dict) {k : String},
    k ∉ d.map Prod.fst → dictGet d k = none
  | [], _, _ => rfl
  | (a, v) :: rest, k, h => by
    have ha : a ≠ k := fun hc => h (by simp [hc])
    have hr : k ∉ rest.map Prod.fst := fun hc => h (by simp [hc])
    simp [dictGet, ha, dictGet_eq_none_of_not_mem rest hr]

theorem dictGet_delete_self : ∀ (d : Dict) (k : String),
    (d.map Prod.fst).Nodup → dictGet (dictDelete d k) k = none
  | [], _, _ => rfl
  | (a, v) :: rest, k, h => by
    rw [List.map_cons, List.nodup_cons] at h
    by_cases ha : a = k
    · subst ha
      simpa [dictDelete] using dictGet_eq_none_of_not_mem rest h.1
    · simp [dictDelete, dictGet, ha, dictGet_delete_self rest k h.2]

theorem dictGet_append_left : ∀ (d e : Dict) {k : String} {x : List String},
    dictGet d k = some x → dictGet (d ++ e) k = some x
  | [], _, _, _, h => by simp [dictGet] at h
  | (a, v) :: rest, e, k, x, h => by
    by_cases ha : a = k
    · simp_all [dictGet]
    · simp only [dictGet, ha, if_false] at h
      simpa [dictGet, ha] using dictGet_append_left rest e h

theorem dictGet_append_of_none : ∀ (d e : Dict) {k : String},
    dictGet d k = none → dictGet (d ++ e) k = dictGet e k
  | [], _, _, _ => rfl
  | (a, v) :: rest, e, k, h => by
    by_cases ha : a = k
    · simp [dictGet, ha] at h
    · simp only [dictGet, ha, if_false] at h
      simpa [dictGet, ha] using dictGet_append_of_none rest e h

theorem dictGet_setdefault_ne (d : Dict) {k k' : String} (v : List String)
    (h : k' ≠ k) : dictGet (dictSetdefault d k v) k' = dictGet d k' := by
  unfold dictSetdefault
  by_cases hc : dictContains d k
  · simp [hc]
  · rcases he : dictGet d k' with _ | x
    · simp [hc, dictGet_append_of_none d [(k, v)] he, dictGet, Ne.symm h]
    · simp [hc, dictGet_append_left d [(k, v)] he, he]

theorem dictGet_setdefault_self (d : Dict) (k : String) (v : List String) :
    dictGet (dictSetdefault d k v) k = some ((dictGet d k).getD v) := by
  unfold dictSetdefault dictContains
  rcases he : dictGet d k with _ | x
  · simp [he, dictGet_append_of_none d [(k, v)] he, dictGet]
  · simp [he, dictGet_append_left d [(k, v)] he]

theorem dictContains_modify (d : Dict) (k k' : String)
    (f : List String → List String) :
    dictContains (dictModify d k f) k' = dictContains d k' := by
  unfold dictContains
  by_cases h : k' = k
  · subst h
    simp [dictGet_modify_self]
  · simp [dictGet_modify_ne d f h]

theorem dictContains_setdefault (d : Dict) (k k' : String) (v : List String) :
    dictContains (dictSetdefault d k v) k' =
      (dictContains d k' || decide (k' = k)) := by
  unfold dictContains
  by_cases h : k' = k
  · subst h
    simp [dictGet_setdefault_self]
  · simp [dictGet_setdefault_ne d v h, h]

theorem get_notes_contains_all (d : Dict) :
    dictContains (get_notes d) ("all") = true := by
  simp [get_notes, dictContains_setdefault]

theorem get_notes_eq_self (d : Dict) (h : dictContains d ("all") = true) :
    get_notes d = d := by
  simp [get_notes, dictSetdefault, h]

theorem dictGet_get_notes_ne (d : Dict) {k : String} (h : k ≠ "all") :
    dictGet (get_notes d) k = dictGet d k :=
  dictGet_setdefault_ne d [] h

theorem dictGet_get_notes_all (d : Dict) :
    dictGet (get_notes d) ("all") = some ((dictGet d ("all")).getD []) :=
  dictGet_setdefault_self d ("all") []

theorem dictGet_none_iff : ∀ (d : Dict) (k : String),
    dictGet d k = none ↔ k ∉ d.map Prod.fst
  | [], k => by simp [dictGet]
  | (a, v) :: rest, k => by
    by_cases ha : a = k
    · subst ha
      simp [dictGet]
    · simp [dictGet, ha, dictGet_none_iff rest k, Ne.symm ha]

theorem get_notes_keys_nodup (d : Dict) (h : (d.map Prod.fst).Nodup) :
    ((get_notes d).map Prod.fst).Nodup := by
  unfold get_notes dictSetdefault
  by_cases hc : dictContains d ("all")
  · simpa [hc] using h
  · have hmem : ("all" : String) ∉ d.map Prod.fst := by
      unfold dictContains at hc
      rcases he : dictGet d ("all") with _ | x
      · exact (dictGet_none_iff d ("all")).mp he
      · simp [he] at hc
    simp only [hc, Bool.false_eq_true, if_false, List.map_append]
    rw [List.nodup_append]
    refine ⟨h, by simp, ?_⟩
    intro x hx
    simp only [List.map_cons, List.map_nil, List.mem_singleton]
    intro he
    exact hmem (he ▸ hx)

/-! ### The executable string order agrees with the mathematical one -/

theorem charListLe_iff : ∀ x y : List Char,
    charListLe x y = true ↔ ¬ List.Lex (fun c d => c < d) y x
  | [], y => by
    simp only [charListLe]
    constructor
    · intro _ h
      cases h
    · intro _
      trivial
  | a :: as, [] => by
    simp only [charListLe]
    constructor
    · intro h
      cases h
    · intro h
      exact absurd List.Lex.nil h
  | a :: as, b :: bs => by
    by_cases hab : a < b
    · simp only [charListLe, if_pos hab]
      constructor
      · intro _ h
        cases h with
        | cons h2 => exact lt_irrefl a hab
        | rel h2 => exact lt_asymm hab h2
      · intro _
        trivial
    · by_cases hba : b < a
      · simp only [charListLe, if_neg hab, if_pos hba]
        constructor
        · intro h
          cases h
        · intro h
          exact absurd (List.Lex.rel hba) h
      · have heq : a = b := le_antisymm (not_lt.mp hba) (not_lt.mp hab)
        subst heq
        simp only [charListLe, if_neg hab]
        rw [charListLe_iff as bs]
        constructor
        · intro h h2
          cases h2 with
          | cons h3 => exact h h3
          | rel h3 => exact lt_irrefl a h3
        · intro h h2
          exact h (List.Lex.cons h2)

theorem strLe_iff_le (a b : String) : strLe a b = true ↔ a ≤ b := by
  rw [strLe, charListLe_iff]
  exact not_congr String.lt_iff_toList_lt |>.symm

theorem strLe_total (a b : String) : strLe a b = true ∨ strLe b a = true := by
  rw [strLe_iff_le, strLe_iff_le]
  exact le_total a b

theorem strLe_trans {a b c : String} (h1 : strLe a b = true)
    (h2 : strLe b c = true) : strLe a c = true := by
  rw [strLe_iff_le] at *
  exact le_trans h1 h2

theorem dictGet_append_of_contains (d e : Dict) {k : String}
    (h : dictContains d k = true) : dictGet (d ++ e) k = dictGet d k := by
  unfold dictContains at h
  rcases he : dictGet d k with _ | x
  · simp [he] at h
  · exact dictGet_append_left d e he

/-! ### Structural lemmas about the handlers -/

theorem saveFold_get_all (entry : String) :
    ∀ (cats : List String) (d : Dict) {x : List String},
      dictGet d ("all") = some x →
      dictGet (cats.foldl (saveStep entry) d) ("all") = some x
  | [], _, _, h => h
  | cat :: cats, d, x, h => by
    rw [List.foldl_cons]
    by_cases hc : cat = "all"
    · rw [saveStep, if_pos hc]
      exact saveFold_get_all entry cats d h
    · rw [saveStep, if_neg hc]
      refine saveFold_get_all entry cats _ ?_
      rw [dictGet_modify_ne _ _ (Ne.symm hc),
        dictGet_setdefault_ne d [] (Ne.symm hc)]
      exact h

theorem save_note_get_all (s : UserState) (note_text : String)
    (categories : List String) (now : String) :
    dictGet (save_note s note_text categories now).1.notes ("all") =
      some (((dictGet s.notes ("all")).getD []) ++
        [note_text ++ " @ " ++ (s.pending_note_ts.getD now)]) := by
  unfold save_note
  dsimp only
  refine saveFold_get_all _ categories _ ?_
  rw [dictGet_modify_self, dictGet_get_notes_all]
  rfl

theorem save_note_contains_all (s : UserState) (note_text : String)
    (categories : List String) (now : String) :
    dictContains (save_note s note_text categories now).1.notes ("all") = true := by
  unfold dictContains
  rw [save_note_get_all]
  rfl

theorem save_note_awaiting (s : UserState) (note_text : String)
    (categories : List String) (now : String) :
    (save_note s note_text categories now).1.awaiting_action = s.awaiting_action :=
  rfl

theorem handle_edit_input_awaiting (s : UserState) (a t : String) :
    (handle_edit_input s a t).1.awaiting_action = none := by
  unfold handle_edit_input
  dsimp only
  repeat' split
  all_goals rfl

theorem handle_edit_input_contains_all (s : UserState) (a t : String) :
    dictContains (handle_edit_input s a t).1.notes ("all") = true := by
  unfold handle_edit_input
  dsimp only
  repeat' split
  all_goals first
    | exact get_notes_contains_all s.notes
    | (simp only [dictContains_modify]
       exact get_notes_contains_all s.notes)
    | (rename_i hne hc
       unfold dictContains
       rw [dictGet_delete_ne _ (Ne.symm hne)]
       exact get_notes_contains_all s.notes)

theorem createNewCats_get_of_contains :
    ∀ (ts : List String) (d : Dict) {k : String},
      dictContains d k = true →
      dictGet (createNewCats d ts).1 k = dictGet d k
  | [], _, _, _ => rfl
  | t :: ts, d, k, h => by
    by_cases hc : dictContains d t
    · simpa [createNewCats, hc] using createNewCats_get_of_contains ts d h
    · have hg : dictGet (d ++ [(t, [])]) k = dictGet d k :=
        dictGet_append_of_contains d _ h
      have hk : dictContains (d ++ [(t, [])]) k = true := by
        unfold dictContains at h ⊢
        rw [hg]
        exact h
      simpa [createNewCats, hc, hg] using
        createNewCats_get_of_contains ts (d ++ [(t, [])]) hk

theorem createNewCats_all_exist :
    ∀ (ts : List String) (d : Dict),
      (∀ t ∈ ts, dictContains d t = true) → createNewCats d ts = (d, [])
  | [], _, _ => rfl
  | t :: ts, d, h => by
    have hc : dictContains d t = true := h t (by simp)
    have ih := createNewCats_all_exist ts d (fun x hx => h x (by simp [hx]))
    simp [createNewCats, hc, ih]

theorem createNewCats_all_novel :
    ∀ (ts : List String) (d : Dict), ts.Nodup →
      (∀ t ∈ ts, dictContains d t = false) →
      (createNewCats d ts).2 = ts.map (fun t => "#" ++ t) ∧
        ∀ t ∈ ts, dictGet (createNewCats d ts).1 t = some []
  | [], _, _, _ => by simp [createNewCats]
  | t :: ts, d, hnd, h => by
    have hc : dictContains d t = false := h t (by simp)
    have hget : dictGet d t = none := by
      unfold dictContains at hc
      rcases he : dictGet d t with _ | x
      · rfl
      · simp [he] at hc
    have hget' : dictGet (d ++ [(t, [])]) t = some [] := by
      rw [dictGet_append_of_none d _ hget]
      simp [dictGet]
    have hcontains' : dictContains (d ++ [(t, [])]) t = true := by
      unfold dictContains
      rw [hget']
      rfl
    rw [List.nodup_cons] at hnd
    have hrest : ∀ x ∈ ts, dictContains (d ++ [(t, [])]) x = false := by
      intro x hx
      have hxt : x ≠ t := fun hc2 => hnd.1 (hc2 ▸ hx)
      have hxd : dictGet d x = none := by
        have := h x (by simp [hx])
        unfold dictContains at this
        rcases he : dictGet d x with _ | y
        · rfl
        · simp [he] at this
      unfold dictContains
      rw [dictGet_append_of_none d _ hxd]
      simp [dictGet, Ne.symm hxt]
    have ih := createNewCats_all_novel ts (d ++ [(t, [])]) hnd.2 hrest
    constructor
    · simp only [createNewCats, hc, Bool.false_eq_true, if_false, List.map_cons]
      exact congrArg _ ih.1
    · intro x hx
      rcases List.mem_cons.1 hx with hx | hx
      · subst hx
        simp only [createNewCats, hc, Bool.false_eq_true, if_false]
        rw [createNewCats_get_of_contains ts _ hcontains']
        exact hget'
      · simp only [createNewCats, hc, Bool.false_eq_true, if_false]
        exact ih.2 x hx

theorem createNewCats_contains (d : Dict) (ts : List String) {k : String}
    (h : dictContains d k = true) :
    dictContains (createNewCats d ts).1 k = true := by
  unfold dictContains
  rw [createNewCats_get_of_contains ts d h]
  exact h

theorem text_handler_awaiting_consumed (s : UserState) (t now : String) {a : String}
    (h : s.awaiting_action = some a) :
    (text_handler s t now).1.awaiting_action = none := by
  unfold text_handler
  dsimp only
  rw [h]
  exact handle_edit_input_awaiting _ a _

theorem text_handler_awaiting_of_none (s : UserState) (t now : String)
    (h : s.awaiting_action = none) :
    (text_handler s t now).1.awaiting_action = none := by
  unfold text_handler
  dsimp only
  rw [h]
  dsimp only
  repeat' split
  all_goals simp [save_note_awaiting, h]

theorem text_handler_contains_all (s : UserState) (t now : String) :
    dictContains (text_handler s t now).1.notes ("all") = true := by
  unfold text_handler
  dsimp only
  rcases h : s.awaiting_action with _ | a
  · dsimp only
    repeat' split
    all_goals first
      | exact createNewCats_contains _ _ (get_notes_contains_all s.notes)
      | exact get_notes_contains_all s.notes
      | exact save_note_contains_all _ _ _ _
  · exact handle_edit_input_contains_all _ a _

theorem category_callback_contains_all (s : UserState) (data now : String) :
    dictContains (category_callback s data now).1.notes ("all") = true := by
  unfold category_callback
  dsimp only
  repeat' split
  all_goals first
    | exact get_notes_contains_all s.notes
    | exact save_note_contains_all _ _ _ _

theorem getD_concat_mid : ∀ (l1 : List String) (a : String) (l2 : List String),
    (l1 ++ a :: l2).getD l1.length "" = a
  | [], _, _ => rfl
  | x :: rest, a, l2 => by
    simpa using getD_concat_mid rest a l2

theorem eraseIdx_concat_mid : ∀ (l1 : List String) (a : String) (l2 : List String),
    (l1 ++ a :: l2).eraseIdx l1.length = l1 ++ l2
  | [], _, _ => rfl
  | x :: rest, a, l2 => by
    simpa using eraseIdx_concat_mid rest a l2

/-- The successful delete-note branch of `handle_edit_input` (lines
341-349), characterized: when the input parses, the category resolves and
the 1-based index is in range, the entry at that position is popped and,
if its value still occurs in `all`, the first such occurrence is removed. -/
theorem handle_edit_input_delnote_success (s : UserState) (t : String)
    (tag ds : List Char) (entries : List String) (i : Nat)
    (hm : matchDelNote (pyStrip t) = some (tag, ds))
    (hinb : dictGet (get_notes s.notes) (pyLower ⟨tag⟩) = some entries)
    (hd : digitsToNat ds = i + 1)
    (hlen : i < entries.length) :
    handle_edit_input s ("edit_delnote") t =
      ({ s with
          awaiting_action := none
          notes :=
            (if entries.getD i "" ∈
                (dictGet (dictModify (get_notes s.notes) (pyLower ⟨tag⟩)
                  (fun l => l.eraseIdx i)) ("all")).getD [] then
              dictModify (dictModify (get_notes s.notes) (pyLower ⟨tag⟩)
                (fun l => l.eraseIdx i)) ("all")
                (fun l => l.erase (entries.getD i ""))
            else
              dictModify (get_notes s.notes) (pyLower ⟨tag⟩)
                (fun l => l.eraseIdx i)) },
        Out.text (msg_note_deleted (pyLower ⟨tag⟩) (entries.getD i ""))) := by
  unfold handle_edit_input
  dsimp only
  rw [if_neg (by decide : ¬ ("edit_delnote" : String) = "edit_delcat"),
    if_pos (rfl : ("edit_delnote" : String) = "edit_delnote"), hm]
  dsimp only
  rw [hinb]
  dsimp only
  rw [hd]
  rw [if_pos (by constructor <;> omega :
    (0 : Int) ≤ (↑(i + 1) : Int) - 1 ∧ (↑(i + 1) : Int) - 1 < (↑entries.length : Int))]
  have hi : ((↑(i + 1) : Int) - 1).toNat = i := by omega
  rw [hi]

/-- Written from the spec's words, for comparison with the code: the
delete-note input "must match `#<tag> <positive integer>` (tag = word
characters/hyphens) possibly with surrounding whitespace" — a full match
of the whole (whitespace-trimmed) input, with a positive number. -/
def specDelNoteFormat (text : String) : Bool :=
  match (pyStrip text).data with
  | [] => false
  | c :: rest =>
    c = '#' &&
      (rest.takeWhile isTagChar ≠ [] &&
        ((rest.dropWhile isTagChar).takeWhile isSpaceChar ≠ [] &&
          (let ds := (rest.dropWhile isTagChar).dropWhile isSpaceChar
           ds ≠ [] && (ds.all Char.isDigit && digitsToNat ds > 0))))

/-! ### Claim theorems -/

/-- Claim C4: in the edit flow, deleteCategory fails with ProtectedCategory
when the normalized input names `all`, fails with NotFound when the named
category is absent from the store, and otherwise removes exactly that
category's mapping entry. -/
theorem C4_delete_category (s : UserState) (text : String)
    (hnd : (s.notes.map Prod.fst).Nodup) :
    (pyLower (pyLstripHash text) = "all" →
      (handle_edit_input s ("edit_delcat") text).2 = Out.text msg_protected) ∧
    (pyLower (pyLstripHash text) ≠ "all" →
      dictContains (get_notes s.notes) (pyLower (pyLstripHash text)) = false →
      (handle_edit_input s ("edit_delcat") text).2 =
        Out.text (msg_cat_not_found (pyLower (pyLstripHash text))) ∧
      (handle_edit_input s ("edit_delcat") text).1.notes = get_notes s.notes) ∧
    (pyLower (pyLstripHash text) ≠ "all" →
      dictContains (get_notes s.notes) (pyLower (pyLstripHash text)) = true →
      (handle_edit_input s ("edit_delcat") text).2 =
        Out.text (msg_cat_deleted (pyLower (pyLstripHash text))) ∧
      (handle_edit_input s ("edit_delcat") text).1.notes =
        dictDelete (get_notes s.notes) (pyLower (pyLstripHash text)) ∧
      dictGet (handle_edit_input s ("edit_delcat") text).1.notes
        (pyLower (pyLstripHash text)) = none) := by
  refine ⟨?_, ?_, ?_⟩
  · intro h
    simp [handle_edit_input, h]
  · intro h hc
    simp [handle_edit_input, h, hc]
  · intro h hc
    refine ⟨?_, ?_, ?_⟩
    · simp [handle_edit_input, h, hc]
    · simp [handle_edit_input, h, hc]
    · have : (handle_edit_input s ("edit_delcat") text).1.notes =
        dictDelete (get_notes s.notes) (pyLower (pyLstripHash text)) := by
        simp [handle_edit_input, h, hc]
      rw [this]
      exact dictGet_delete_self _ _ (get_notes_keys_nodup s.notes hnd)

/-- Closed instance of C4: deleting `#work` from a store holding `all` and
`work` reports deletion and removes exactly the `work` entry. -/
theorem C4_delete_category_witness :
    ((([(("all" : String), ([] : List String)), ("work", ["e"])] : Dict).map
      Prod.fst).Nodup) ∧
    ((handle_edit_input
        ⟨[("all", []), ("work", ["e"])], none, none, none, some ("edit_delcat")⟩
        ("edit_delcat") ("#Work")).2 =
      Out.text (msg_cat_deleted ("work")) ∧
    (handle_edit_input
        ⟨[("all", []), ("work", ["e"])], none, none, none, some ("edit_delcat")⟩
        ("edit_delcat") ("#Work")).1.notes =
      dictDelete (get_notes [("all", []), ("work", ["e"])]) (pyLower (pyLstripHash ("#Work"))) ∧
    dictGet (handle_edit_input
        ⟨[("all", []), ("work", ["e"])], none, none, none, some ("edit_delcat")⟩
        ("edit_delcat") ("#Work")).1.notes (pyLower (pyLstripHash ("#Work"))) = none) := by
  refine ⟨by decide, ?_⟩
  have h := (C4_delete_category
    ⟨[("all", []), ("work", ["e"])], none, none, none, some ("edit_delcat")⟩
    ("#Work") (by decide)).2.2 (by decide) (by decide)
  refine ⟨?_, h.2.1, h.2.2⟩
  have he : pyLower (pyLstripHash ("#Work")) = "work" := by decide
  rw [← he]
  exact h.1

/-- Claim C5: deleting a category removes only that category's mapping
entry; `all` and every other category read the same afterwards, and a
failed delete (protected or not-found) leaves the whole store unchanged. -/
theorem C5_delete_category_frame (s : UserState) (text : String)
    (hall : dictContains s.notes ("all") = true) :
    (pyLower (pyLstripHash text) = "all" →
      (handle_edit_input s ("edit_delcat") text).1.notes = s.notes) ∧
    (dictContains s.notes (pyLower (pyLstripHash text)) = false →
      (handle_edit_input s ("edit_delcat") text).1.notes = s.notes) ∧
    (∀ k, k ≠ pyLower (pyLstripHash text) →
      dictGet (handle_edit_input s ("edit_delcat") text).1.notes k =
        dictGet s.notes k) := by
  refine ⟨?_, ?_, ?_⟩
  · intro h
    simp [handle_edit_input, h, get_notes_eq_self s.notes hall]
  · intro hc
    have hne : pyLower (pyLstripHash text) ≠ "all" := by
      intro he
      rw [he, hall] at hc
      simp at hc
    simp [handle_edit_input, hne, get_notes_eq_self s.notes hall, hc]
  · intro k hk
    by_cases h1 : pyLower (pyLstripHash text) = "all"
    · simp [handle_edit_input, h1, get_notes_eq_self s.notes hall]
    · by_cases h2 : dictContains s.notes (pyLower (pyLstripHash text))
      · simp [handle_edit_input, h1, h2, get_notes_eq_self s.notes hall,
          dictGet_delete_ne _ hk]
      · simp [handle_edit_input, h1, h2, get_notes_eq_self s.notes hall]

/-- Closed instance of C5: deleting `#work` leaves `all` and `urgent`
reading unchanged. -/
theorem C5_delete_category_frame_witness :
    (dictContains ([(("all" : String), (["x"] : List String)), ("work", ["x"]), ("urgent", ["x"])] : Dict) ("all") = true) ∧
    dictGet (handle_edit_input
      ⟨[("all", ["x"]), ("work", ["x"]), ("urgent", ["x"])], none, none, none, some ("edit_delcat")⟩
      ("edit_delcat") ("#work")).1.notes ("urgent") =
      dictGet ([(("all" : String), (["x"] : List String)), ("work", ["x"]), ("urgent", ["x"])] : Dict) ("urgent") := by
  refine ⟨by decide, ?_⟩
  exact (C5_delete_category_frame
    ⟨[("all", ["x"]), ("work", ["x"]), ("urgent", ["x"])], none, none, none, some ("edit_delcat")⟩
    ("#work") (by decide)).2.2 ("urgent") (by decide)

/-- Claim C6: the category `all` exists in the store after every handler
invocation, and every note-saving operation appends the saved entry to the
end of `all`'s list (so `all` accumulates every saved note in save order). -/
theorem C6_all_invariant :
    (∀ (s : UserState) (t now : String),
      dictContains (text_handler s t now).1.notes ("all") = true) ∧
    (∀ (s : UserState) (data now : String),
      dictContains (category_callback s data now).1.notes ("all") = true) ∧
    (∀ (s : UserState) (a t : String),
      dictContains (handle_edit_input s a t).1.notes ("all") = true) ∧
    (∀ (s : UserState) (note_text : String) (cats : List String) (now : String),
      dictGet (save_note s note_text cats now).1.notes ("all") =
        some (((dictGet s.notes ("all")).getD []) ++
          [note_text ++ " @ " ++ (s.pending_note_ts.getD now)])) :=
  ⟨text_handler_contains_all, category_callback_contains_all,
    handle_edit_input_contains_all, save_note_get_all⟩

/-- Claim C7: tag extraction returns the hashtag tokens found in the text,
hash stripped and lower-cased, deduplicated and sorted lexicographically;
in particular on "Buy #Milk #milk #eggs" it returns ["eggs", "milk"]. -/
theorem C7_extract_hashtags_spec :
    (∀ text : String,
      List.Sorted (fun a b => a ≤ b) (extract_hashtags text) ∧
      (extract_hashtags text).Nodup ∧
      (∀ s : String, s ∈ extract_hashtags text ↔
        s ∈ (findHashtags text.data).map
          (fun cs => (⟨cs.map Char.toLower⟩ : String)))) ∧
    extract_hashtags ("Buy #Milk #milk #eggs") = [("eggs"), ("milk")] := by
  constructor
  · intro text
    refine ⟨?_, ?_, ?_⟩
    · have hs : List.Sorted (fun a b => strLe a b = true) (extract_hashtags text) :=
        @List.sorted_insertionSort String (fun a b => strLe a b = true) _
          ⟨strLe_total⟩ ⟨fun _ _ _ => strLe_trans⟩ _
      exact hs.imp (fun h => (strLe_iff_le _ _).mp h)
    · exact ((List.perm_insertionSort _ _).nodup_iff).mpr (List.nodup_dedup _)
    · intro s
      rw [extract_hashtags, List.mem_insertionSort, List.mem_dedup]
  · decide

/-- Claim C9: pressing Done with no pending note fails with the
NoPendingNote error reply and leaves the note store unchanged. -/
theorem C9_done_without_pending (s : UserState) (now : String)
    (hp : s.pending_note = none)
    (hall : dictContains s.notes ("all") = true) :
    (category_callback s ("cat_done") now).2 = Out.text msg_no_pending ∧
    (category_callback s ("cat_done") now).1.notes = s.notes := by
  constructor <;>
    simp [category_callback, hp, get_notes_eq_self s.notes hall]

/-- Closed instance of C9: Done on a store with one empty category and no
pending note replies the error and changes nothing. -/
theorem C9_done_without_pending_witness :
    ((⟨[("all", ["x"]), ("a", [])], none, none, none, none⟩ : UserState).pending_note = none ∧
      dictContains ([(("all" : String), (["x"] : List String)), ("a", [])] : Dict) ("all") = true) ∧
    (category_callback ⟨[("all", ["x"]), ("a", [])], none, none, none, none⟩
        ("cat_done") ("T")).2 = Out.text msg_no_pending ∧
    (category_callback ⟨[("all", ["x"]), ("a", [])], none, none, none, none⟩
        ("cat_done") ("T")).1.notes = [("all", ["x"]), ("a", [])] :=
  ⟨⟨rfl, by decide⟩,
    C9_done_without_pending ⟨[("all", ["x"]), ("a", [])], none, none, none, none⟩
      ("T") rfl (by decide)⟩

/-- Claim C10: when the delete-note flow is addressed to `all` itself, the
entry at the given position is popped from `all` and then the first equal
remaining occurrence is also removed, so one request removes both copies
of a duplicated entry string. -/
theorem C10_delete_from_all_removes_two (s : UserState) (e : String)
    (l1 l2 l3 : List String) (ds : List Char) (t : String)
    (h1 : e ∉ l1) (h2 : e ∉ l2)
    (hall : dictGet s.notes ("all") = some (l1 ++ e :: (l2 ++ e :: l3)))
    (hm : matchDelNote (pyStrip t) = some (("all").data, ds))
    (hd : digitsToNat ds = l1.length + 1) :
    dictGet (handle_edit_input s ("edit_delnote") t).1.notes ("all") =
      some (l1 ++ (l2 ++ l3)) ∧
    (handle_edit_input s ("edit_delnote") t).2 =
      Out.text (msg_note_deleted ("all") e) := by
  have hcat : pyLower (⟨("all").data⟩ : String) = "all" := by decide
  have hcont : dictContains s.notes ("all") = true := by
    unfold dictContains
    rw [hall]
    rfl
  have hgn : dictGet (get_notes s.notes) ("all") =
      some (l1 ++ e :: (l2 ++ e :: l3)) := by
    rw [get_notes_eq_self s.notes hcont]
    exact hall
  have hinb : dictGet (get_notes s.notes) (pyLower ⟨("all").data⟩) =
      some (l1 ++ e :: (l2 ++ e :: l3)) := by
    rw [hcat]
    exact hgn
  have hlen : l1.length < (l1 ++ e :: (l2 ++ e :: l3)).length := by
    simp [List.length_append]
  have heq := handle_edit_input_delnote_success s t (("all").data) ds _
    l1.length hm hinb hd hlen
  rw [heq]
  dsimp only
  rw [hcat]
  have hdel : (l1 ++ e :: (l2 ++ e :: l3)).getD l1.length "" = e :=
    getD_concat_mid l1 e _
  have hga : dictGet (dictModify (get_notes s.notes) ("all")
      (fun l => l.eraseIdx l1.length)) ("all") =
      some (l1 ++ (l2 ++ e :: l3)) := by
    rw [dictGet_modify_self, hgn, Option.map_some']
    rw [eraseIdx_concat_mid l1 e _]
  rw [hdel, hga]
  rw [if_pos (by simp : e ∈ ((some (l1 ++ (l2 ++ e :: l3))).getD []))]
  constructor
  · rw [dictGet_modify_self, hga, Option.map_some']
    rw [List.erase_append_right _ h1, List.erase_append_right _ h2,
      List.erase_cons_head]
  · rfl

/-- Closed instance of C10: deleting `#all 1` when `all` holds the same
entry twice empties `all`. -/
theorem C10_delete_from_all_removes_two_witness :
    (("x" : String) ∉ ([] : List String)) ∧
    dictGet (handle_edit_input
      ⟨[("all", ["x", "x"]), ("w", ["x"])], none, none, none, some ("edit_delnote")⟩
      ("edit_delnote") ("#all 1")).1.notes ("all") = some [] ∧
    (handle_edit_input
      ⟨[("all", ["x", "x"]), ("w", ["x"])], none, none, none, some ("edit_delnote")⟩
      ("edit_delnote") ("#all 1")).2 = Out.text (msg_note_deleted ("all") ("x")) := by
  refine ⟨by decide, ?_⟩
  have h := C10_delete_from_all_removes_two
    ⟨[("all", ["x", "x"]), ("w", ["x"])], none, none, none, some ("edit_delnote")⟩
    ("x") [] [] [] (("1").data) ("#all 1")
    (by decide) (by decide) (by decide) (by decide) (by decide)
  exact h

/-- Claim C3: round-trip — saving a note filed under work and urgent puts
the identical formatted entry at the end of `work`, `urgent` and `all`;
deleting it through the delete-note flow addressed to `#work` (at its
1-based position) removes it from `work` and from `all` but leaves it in
`urgent`. -/
theorem C3_roundtrip (la lw lu : List String) (note ts now t2 : String)
    (ds : List Char)
    (ha : (note ++ " @ " ++ ts) ∉ la)
    (hm : matchDelNote (pyStrip t2) = some (("work").data, ds))
    (hd : digitsToNat ds = lw.length + 1) :
    let s0 : UserState :=
      ⟨[("all", la), ("work", lw), ("urgent", lu)], some note, some ts,
        some [("work"), ("urgent")], none⟩
    let entry := note ++ " @ " ++ ts
    let s1 := (save_note s0 note ([("work"), ("urgent")]) now).1
    let s2 := { s1 with awaiting_action := some ("edit_delnote") }
    (dictGet s1.notes ("all") = some (la ++ [entry]) ∧
      dictGet s1.notes ("work") = some (lw ++ [entry]) ∧
      dictGet s1.notes ("urgent") = some (lu ++ [entry])) ∧
    (dictGet (handle_edit_input s2 ("edit_delnote") t2).1.notes ("work") = some lw ∧
      dictGet (handle_edit_input s2 ("edit_delnote") t2).1.notes ("all") = some la ∧
      dictGet (handle_edit_input s2 ("edit_delnote") t2).1.notes ("urgent") =
        some (lu ++ [entry])) := by
  intro s0 entry s1 s2
  have hcat : pyLower (⟨("work").data⟩ : String) = "work" := by decide
  have hdel' : (lw ++ [entry]).getD lw.length "" = entry := getD_concat_mid lw entry []
  have hinb : dictGet (get_notes s2.notes) (pyLower (⟨("work").data⟩ : String)) =
      some (lw ++ [entry]) := by
    rw [hcat]
    rfl
  have hlen : lw.length < (lw ++ [entry]).length := by simp
  have heq := handle_edit_input_delnote_success s2 t2 (("work").data) ds
    (lw ++ [entry]) lw.length hm hinb hd hlen
  have hmem : entry ∈ ((dictGet (dictModify (get_notes s2.notes) (pyLower (⟨("work").data⟩ : String))
      (fun l => l.eraseIdx lw.length)) ("all")).getD []) := by
    rw [hcat]
    show entry ∈ la ++ [entry]
    simp
  have hfin : (handle_edit_input s2 ("edit_delnote") t2).1.notes =
      dictModify (dictModify (get_notes s2.notes) (pyLower (⟨("work").data⟩ : String))
        (fun l => l.eraseIdx lw.length)) ("all") (fun l => l.erase entry) := by
    rw [heq]
    dsimp only
    rw [hdel']
    rw [if_pos hmem]
  refine ⟨⟨rfl, rfl, rfl⟩, ?_, ?_, ?_⟩
  · rw [hfin, hcat]
    show some ((lw ++ [entry]).eraseIdx lw.length) = some lw
    rw [eraseIdx_concat_mid lw entry [], List.append_nil]
  · rw [hfin, hcat]
    show some ((la ++ [entry]).erase entry) = some la
    rw [List.erase_append_right _ ha, List.erase_cons_head, List.append_nil]
  · rw [hfin, hcat]
    rfl

/-- Closed instance of C3 on an initially empty store. -/
theorem C3_roundtrip_witness :
    ((("n" ++ " @ " ++ "T" : String) ∉ ([] : List String)) ∧
      matchDelNote (pyStrip ("#work 1")) = some (("work").data, ("1").data) ∧
      digitsToNat (("1").data) = List.length ([] : List String) + 1) ∧
    dictGet (handle_edit_input
        { (save_note
            ⟨[("all", []), ("work", []), ("urgent", [])], some ("n"), some ("T"),
              some [("work"), ("urgent")], none⟩
            ("n") ([("work"), ("urgent")]) ("N")).1
          with awaiting_action := some ("edit_delnote") }
        ("edit_delnote") ("#work 1")).1.notes ("all") = some [] ∧
    dictGet (handle_edit_input
        { (save_note
            ⟨[("all", []), ("work", []), ("urgent", [])], some ("n"), some ("T"),
              some [("work"), ("urgent")], none⟩
            ("n") ([("work"), ("urgent")]) ("N")).1
          with awaiting_action := some ("edit_delnote") }
        ("edit_delnote") ("#work 1")).1.notes ("urgent") =
      some [("n" ++ " @ " ++ "T")] := by
  refine ⟨⟨by decide, by decide, by decide⟩, ?_, ?_⟩
  · exact (C3_roundtrip [] [] [] ("n") ("T") ("N") ("#work 1") (("1").data)
      (by decide) (by decide) (by decide)).2.2.1
  · exact (C3_roundtrip [] [] [] ("n") ("T") ("N") ("#work 1") (("1").data)
      (by decide) (by decide) (by decide)).2.2.2

/-- Claim C8: while an edit session is active, the next text message
destroys the session before its content is processed, whatever the
content; a subsequent message (here: any non-pure-tag-list text) is then
handled as an ordinary note — it either opens category selection for that
text or saves it immediately — not as edit input. -/
theorem C8_session_consumed (s : UserState) (t1 t2 now1 now2 : String) {a : String}
    (ha : s.awaiting_action = some a)
    (hnp : (⟨(pyStrip t2).data.filter (fun c => c ≠ ' ')⟩ : String) ≠
      String.join ((extract_hashtags (pyStrip t2)).map (fun t => "#" ++ t))) :
    (text_handler s t1 now1).1.awaiting_action = none ∧
    (((text_handler (text_handler s t1 now1).1 t2 now2).1.pending_note =
        some (pyStrip t2) ∧
      (text_handler (text_handler s t1 now1).1 t2 now2).2 =
        Out.text (msg_menu (extract_hashtags (pyStrip t2)))) ∨
     ((text_handler (text_handler s t1 now1).1 t2 now2).1.pending_note = none ∧
      dictGet (text_handler (text_handler s t1 now1).1 t2 now2).1.notes ("all") =
        some (((dictGet (text_handler s t1 now1).1.notes ("all")).getD []) ++
          [pyStrip t2 ++ " @ " ++ now2]))) := by
  refine ⟨text_handler_awaiting_consumed s t1 now1 ha, ?_⟩
  set s1 := (text_handler s t1 now1).1 with hs1
  have h1 : s1.awaiting_action = none := text_handler_awaiting_consumed s t1 now1 ha
  unfold text_handler
  dsimp only
  rw [h1]
  dsimp only
  rw [if_neg hnp]
  by_cases hb : has_other_categories (get_notes s1.notes) = true
  · rw [if_pos hb]
    exact Or.inl ⟨rfl, rfl⟩
  · rw [if_neg hb]
    refine Or.inr ⟨rfl, ?_⟩
    rw [save_note_get_all]
    dsimp only
    rw [dictGet_get_notes_all]
    rfl

/-- Closed instance of C8: a malformed delete-note input consumes the
session; the next well-formed `#work 1` is saved as an ordinary note. -/
theorem C8_session_consumed_witness :
    ((⟨[("all", [])], none, none, none, some ("edit_delnote")⟩ : UserState).awaiting_action =
      some ("edit_delnote")) ∧
    ((⟨(pyStrip ("#work 1")).data.filter (fun c => c ≠ ' ')⟩ : String) ≠
      String.join ((extract_hashtags (pyStrip ("#work 1"))).map (fun t => "#" ++ t))) ∧
    (text_handler ⟨[("all", [])], none, none, none, some ("edit_delnote")⟩
      ("#work two") ("T1")).1.awaiting_action = none ∧
    (((text_handler (text_handler ⟨[("all", [])], none, none, none, some ("edit_delnote")⟩
          ("#work two") ("T1")).1 ("#work 1") ("T2")).1.pending_note =
        some (pyStrip ("#work 1")) ∧
      (text_handler (text_handler ⟨[("all", [])], none, none, none, some ("edit_delnote")⟩
          ("#work two") ("T1")).1 ("#work 1") ("T2")).2 =
        Out.text (msg_menu (extract_hashtags (pyStrip ("#work 1"))))) ∨
     ((text_handler (text_handler ⟨[("all", [])], none, none, none, some ("edit_delnote")⟩
          ("#work two") ("T1")).1 ("#work 1") ("T2")).1.pending_note = none ∧
      dictGet (text_handler (text_handler ⟨[("all", [])], none, none, none, some ("edit_delnote")⟩
          ("#work two") ("T1")).1 ("#work 1") ("T2")).1.notes ("all") =
        some (((dictGet (text_handler ⟨[("all", [])], none, none, none, some ("edit_delnote")⟩
            ("#work two") ("T1")).1.notes ("all")).getD []) ++
          [pyStrip ("#work 1") ++ " @ " ++ "T2"]))) := by
  refine ⟨rfl, by decide, ?_⟩
  exact C8_session_consumed ⟨[("all", [])], none, none, none, some ("edit_delnote")⟩
    ("#work two") ("#work 1") ("T1") ("T2") rfl (by decide)

/-- The invalid-format reply starts with a different character than the
note-not-found reply, whatever the interpolated parts. -/
theorem msg_invalid_ne_note_not_found (c n : String) :
    Out.text (msg_note_not_found c n) ≠ Out.text msg_invalid_format := by
  intro h
  have h2 : msg_note_not_found c n = msg_invalid_format := by
    injection h
  have h3 : (msg_note_not_found c n).data.head? = msg_invalid_format.data.head? :=
    congrArg (fun s => s.data.head?) h2
  have e1 : (msg_note_not_found c n).data.head? = some ('❌') := rfl
  have e2 : msg_invalid_format.data.head? = some ('⚠') := rfl
  rw [e1, e2] at h3
  simp at h3

/-- Likewise for the deletion confirmation. -/
theorem msg_deleted_ne_invalid (c e : String) :
    Out.text (msg_note_deleted c e) ≠ Out.text msg_invalid_format := by
  intro h
  have h2 : msg_note_deleted c e = msg_invalid_format := by
    injection h
  have h3 : (msg_note_deleted c e).data.head? = msg_invalid_format.data.head? :=
    congrArg (fun s => s.data.head?) h2
  have e1 : (msg_note_deleted c e).data.head? = some ('✅') := rfl
  have e2 : msg_invalid_format.data.head? = some ('⚠') := rfl
  rw [e1, e2] at h3
  simp at h3

/-- Claim C1 (amended): in the edit-note flow InvalidFormat is reported iff
the regex finds no match at the START of the trimmed input (`re.match` is
not end-anchored: trailing characters after the digits are ignored, and
the digit run may denote zero); when a prefix parses, an unknown category
or an out-of-range 1-based index is reported as NotFound instead. -/
theorem C1_delnote_error_classification (s : UserState) (text : String) :
    ((handle_edit_input s ("edit_delnote") text).2 = Out.text msg_invalid_format ↔
      matchDelNote (pyStrip text) = none) ∧
    (∀ tag ds, matchDelNote (pyStrip text) = some (tag, ds) →
      (dictGet (get_notes s.notes) (pyLower (⟨tag⟩ : String)) = none ∨
        (∀ entries, dictGet (get_notes s.notes) (pyLower (⟨tag⟩ : String)) =
            some entries →
          ¬((0 : Int) ≤ (digitsToNat ds : Int) - 1 ∧
            (digitsToNat ds : Int) - 1 < (entries.length : Int)))) →
      (handle_edit_input s ("edit_delnote") text).2 =
        Out.text (msg_note_not_found (pyLower (⟨tag⟩ : String)) (⟨ds⟩ : String))) := by
  unfold handle_edit_input
  dsimp only
  rw [if_neg (by decide : ¬ ("edit_delnote" : String) = "edit_delcat"),
    if_pos (rfl : ("edit_delnote" : String) = "edit_delnote")]
  rcases hmain : matchDelNote (pyStrip text) with _ | ⟨tag, ds⟩
  · dsimp only
    constructor
    · simp
    · intro tag2 ds2 h hcond
      exact absurd h (by simp)
  · dsimp only
    rcases hg : dictGet (get_notes s.notes) (pyLower (⟨tag⟩ : String)) with _ | entries
    · dsimp only
      refine ⟨⟨fun h => absurd h (msg_invalid_ne_note_not_found _ _), fun h => by simp at h⟩, ?_⟩
      intro tag2 ds2 h hcond
      injection h with h3
      injection h3 with h4 h5
      subst h4
      subst h5
      rfl
    · dsimp only
      by_cases hr : (0 : Int) ≤ (digitsToNat ds : Int) - 1 ∧
          (digitsToNat ds : Int) - 1 < (entries.length : Int)
      · rw [if_pos hr]
        refine ⟨⟨fun h => absurd h (msg_deleted_ne_invalid _ _), fun h => by simp at h⟩, ?_⟩
        intro tag2 ds2 h hcond
        injection h with h3
        injection h3 with h4 h5
        subst h4
        subst h5
        rcases hcond with hnone | hall2
        · rw [hg] at hnone
          simp at hnone
        · exact absurd hr (hall2 entries hg)
      · rw [if_neg hr]
        refine ⟨⟨fun h => absurd h (msg_invalid_ne_note_not_found _ _), fun h => by simp at h⟩, ?_⟩
        intro tag2 ds2 h hcond
        injection h with h3
        injection h3 with h4 h5
        subst h4
        subst h5
        rfl

/-- Counterexample to C1 as stated: `"#work 1x"` does not match the spec
pattern `#<tag> <positive integer>` as a full match (trailing `x`), so the
claimed iff demands InvalidFormat — but the code's `re.match` accepts the
prefix and reports NotFound. -/
theorem C1_counterexample :
    specDelNoteFormat ("#work 1x") = false ∧
    (handle_edit_input ⟨[("all", [])], none, none, none, some ("edit_delnote")⟩
        ("edit_delnote") ("#work 1x")).2 =
      Out.text (msg_note_not_found ("work") ("1")) ∧
    ¬((handle_edit_input ⟨[("all", [])], none, none, none, some ("edit_delnote")⟩
        ("edit_delnote") ("#work 1x")).2 = Out.text msg_invalid_format ↔
      specDelNoteFormat ("#work 1x") = false) := by
  refine ⟨by decide, by decide, ?_⟩
  intro h
  have h2 := h.mpr (by decide)
  exact absurd h2 (by decide)

/-- Closed instance of the amended C1: an unknown category parsed from a
well-formed prefix reports NotFound. -/
theorem C1_delnote_error_classification_witness :
    matchDelNote (pyStrip ("#zzz 5")) = some (("zzz").data, ("5").data) ∧
    dictGet (get_notes [(("all" : String), ([] : List String))])
      (pyLower (⟨("zzz").data⟩ : String)) = none ∧
    (handle_edit_input ⟨[("all", [])], none, none, none, some ("edit_delnote")⟩
        ("edit_delnote") ("#zzz 5")).2 =
      Out.text (msg_note_not_found (pyLower (⟨("zzz").data⟩ : String))
        (⟨("5").data⟩ : String)) := by
  refine ⟨by decide, by decide, ?_⟩
  exact (C1_delnote_error_classification
    ⟨[("all", [])], none, none, none, some ("edit_delnote")⟩ ("#zzz 5")).2
    (("zzz").data) (("5").data) (by decide) (Or.inl (by decide))

/-- Tag extraction never repeats a tag (set semantics in the source). -/
theorem extract_hashtags_nodup (text : String) : (extract_hashtags text).Nodup :=
  ((List.perm_insertionSort _ _).nodup_iff).mpr (List.nodup_dedup _)

/-- Claim C2 (amended): for a message that is a pure tag list with at
least one extracted tag, if every tag is novel each is created as an empty
category and the reply names them; if all already exist the reply says so
and the store is unchanged; in either case existing note lists (including
`all`), the pending note and the selection session are untouched. -/
theorem C2_pure_tag_list (s : UserState) (text now : String)
    (hA : s.awaiting_action = none)
    (hall : dictContains s.notes ("all") = true)
    (hpure : (⟨(pyStrip text).data.filter (fun c => c ≠ ' ')⟩ : String) =
      String.join ((extract_hashtags (pyStrip text)).map (fun t => "#" ++ t)))
    (hne : extract_hashtags (pyStrip text) ≠ []) :
    ((∀ t ∈ extract_hashtags (pyStrip text), dictContains s.notes t = false) →
      (text_handler s text now).2 =
        Out.text (msg_created ((extract_hashtags (pyStrip text)).map
          (fun t => "#" ++ t))) ∧
      (∀ t ∈ extract_hashtags (pyStrip text),
        dictGet (text_handler s text now).1.notes t = some []) ∧
      (∀ k, dictContains s.notes k = true →
        dictGet (text_handler s text now).1.notes k = dictGet s.notes k)) ∧
    ((∀ t ∈ extract_hashtags (pyStrip text), dictContains s.notes t = true) →
      (text_handler s text now).2 = Out.text msg_already ∧
      (text_handler s text now).1.notes = s.notes) ∧
    (text_handler s text now).1.pending_note = s.pending_note ∧
    (text_handler s text now).1.selected_categories = s.selected_categories ∧
    dictGet (text_handler s text now).1.notes ("all") = dictGet s.notes ("all") := by
  have hred : text_handler s text now =
      (if (createNewCats s.notes (extract_hashtags (pyStrip text))).2 ≠ [] then
        ({ s with notes := (createNewCats s.notes (extract_hashtags (pyStrip text))).1 },
          Out.text (msg_created
            (createNewCats s.notes (extract_hashtags (pyStrip text))).2))
      else
        ({ s with notes := (createNewCats s.notes (extract_hashtags (pyStrip text))).1 },
          Out.text msg_already)) := by
    unfold text_handler
    dsimp only
    rw [hA]
    dsimp only
    rw [if_pos hpure, get_notes_eq_self s.notes hall]
  rw [hred]
  refine ⟨?_, ?_, ?_, ?_, ?_⟩
  · intro hnovel
    obtain ⟨hc2, hcget⟩ := createNewCats_all_novel _ s.notes
      (extract_hashtags_nodup (pyStrip text)) hnovel
    have hne2 : (createNewCats s.notes (extract_hashtags (pyStrip text))).2 ≠ [] := by
      rw [hc2]
      simpa using hne
    rw [if_pos hne2]
    refine ⟨?_, ?_, ?_⟩
    · dsimp only
      rw [hc2]
    · intro t ht
      dsimp only
      exact hcget t ht
    · intro k hk
      dsimp only
      exact createNewCats_get_of_contains _ s.notes hk
  · intro hexist
    have h := createNewCats_all_exist _ s.notes hexist
    have hne2 : ¬ ((createNewCats s.notes (extract_hashtags (pyStrip text))).2 ≠ []) := by
      rw [h]
      simp
    rw [if_neg hne2]
    refine ⟨rfl, ?_⟩
    dsimp only
    rw [h]
  · by_cases hc : (createNewCats s.notes (extract_hashtags (pyStrip text))).2 ≠ []
    · rw [if_pos hc]
    · rw [if_neg hc]
  · by_cases hc : (createNewCats s.notes (extract_hashtags (pyStrip text))).2 ≠ []
    · rw [if_pos hc]
    · rw [if_neg hc]
  · by_cases hc : (createNewCats s.notes (extract_hashtags (pyStrip text))).2 ≠ []
    · rw [if_pos hc]
      exact createNewCats_get_of_contains _ s.notes hall
    · rw [if_neg hc]
      exact createNewCats_get_of_contains _ s.notes hall

/-- Counterexample to C2 as stated: a whitespace-only message is a pure
tag list (empty reconstruction) whose every extracted tag is vacuously
novel, yet the reply is the already-exist report, not a creation report. -/
theorem C2_counterexample :
    ((⟨(pyStrip (" ")).data.filter (fun c => c ≠ ' ')⟩ : String) =
      String.join ((extract_hashtags (pyStrip (" "))).map (fun t => "#" ++ t))) ∧
    (∀ t ∈ extract_hashtags (pyStrip (" ")),
      dictContains [(("all" : String), ([] : List String))] t = false) ∧
    (text_handler ⟨[("all", [])], none, none, none, none⟩ (" ") ("T")).2 =
      Out.text msg_already ∧
    (text_handler ⟨[("all", [])], none, none, none, none⟩ (" ") ("T")).2 ≠
      Out.text (msg_created ((extract_hashtags (pyStrip (" "))).map
        (fun t => "#" ++ t))) := by
  refine ⟨by decide, by decide, by decide, by decide⟩

/-- Closed instance of the amended C2: `"#a #b"` on an empty store creates
both categories and reports them; the store keeps `all` unchanged. -/
theorem C2_pure_tag_list_witness :
    ((⟨[("all", ["x"])], none, none, none, none⟩ : UserState).awaiting_action = none ∧
      dictContains [(("all" : String), (["x"] : List String))] ("all") = true ∧
      (⟨(pyStrip ("#a #b")).data.filter (fun c => c ≠ ' ')⟩ : String) =
        String.join ((extract_hashtags (pyStrip ("#a #b"))).map (fun t => "#" ++ t)) ∧
      extract_hashtags (pyStrip ("#a #b")) ≠ []) ∧
    (text_handler ⟨[("all", ["x"])], none, none, none, none⟩ ("#a #b") ("T")).2 =
      Out.text (msg_created ((extract_hashtags (pyStrip ("#a #b"))).map
        (fun t => "#" ++ t))) ∧
    dictGet (text_handler ⟨[("all", ["x"])], none, none, none, none⟩
        ("#a #b") ("T")).1.notes ("all") =
      dictGet [(("all" : String), (["x"] : List String))] ("all") := by
  refine ⟨⟨rfl, by decide, by decide, by decide⟩, ?_, ?_⟩
  · exact ((C2_pure_tag_list ⟨[("all", ["x"])], none, none, none, none⟩
      ("#a #b") ("T") rfl (by decide) (by decide) (by decide)).1
      (by decide)).1
  · exact (C2_pure_tag_list ⟨[("all", ["x"])], none, none, none, none⟩
      ("#a #b") ("T") rfl (by decide) (by decide) (by decide)).2.2.2.2
